import Mathlib

/- Verification development for the transliteration engine of the
   Dragons-of-Golarion repository: the class-based engine in
   transliterator/transliterator.py (with its tables in
   transliterator/DATA.py) and the older standalone transliterator.py.

   Modelling conventions: a Python string is its list of unicode code
   points (List Char); a Python dict of strings is an association list
   in insertion order with pairwise-distinct keys; a raised exception
   (KeyError, AssertionError, ValueError) is the error channel of
   Except.  Python str.replace is modelled from its documented
   semantics: left-to-right, non-overlapping replacement of every
   occurrence; Python sorted(..., key=len, reverse=True) is a stable
   sort by descending length, modelled by List.insertionSort with the
   relation that keeps an element before every strictly shorter one and
   before later equal-length ones. -/

namespace Transl

/-- A Python string, as its list of unicode code points. -/
abbrev Str := List Char

/-- One entry of a Python dict of strings: (key, value). -/
abbrev Entry := Str × Str

/-- A Python dict of strings: its entries in insertion order. -/
abbrev Dict := List Entry

/-- The exceptions the transliteration engine can raise: KeyError from a
    failed dict lookup (carrying the missing key), AssertionError from the
    coverage assert (carrying the set of offending characters), and
    ValueError (carrying the buffer contents for the buffer-overgrowth
    raise, and the empty string for max() on an empty sequence). -/
inductive PyErr : Type
  | keyError : Str → PyErr
  | assertionError : Str → PyErr
  | valueError : Str → PyErr
deriving DecidableEq

instance : DecidableEq (Except PyErr Str) := fun x y =>
  match x, y with
  | .error a, .error b =>
    if h : a = b then isTrue (by rw [h]) else isFalse (fun hxy => by cases hxy; exact h rfl)
  | .ok a, .ok b =>
    if h : a = b then isTrue (by rw [h]) else isFalse (fun hxy => by cases hxy; exact h rfl)
  | .error _, .ok _ => isFalse (fun h => by cases h)
  | .ok _, .error _ => isFalse (fun h => by cases h)

/-- Python s.replace with an empty pattern: the replacement is inserted
    before every character and at the end. -/
def replEmpty (rep : Str) : Str → Str
  | [] => rep
  | c :: rest => rep ++ c :: replEmpty rep rest

/-- Worker for Python str.replace with non-empty pattern p :: ps:
    left-to-right, non-overlapping replacement of every occurrence.
    The Nat argument is fuel; each step consumes at least one character,
    so fuel equal to the length of the string suffices (established by
    replaceAux_fuel below). -/
def replaceAux (p : Char) (ps rep : Str) : Nat → Str → Str
  | _, [] => []
  | 0, _ => []
  | Nat.succ fuel, c :: rest =>
    if (p :: ps).isPrefixOf (c :: rest) then
      rep ++ replaceAux p ps rep fuel (rest.drop ps.length)
    else
      c :: replaceAux p ps rep fuel rest

/-- Python s.replace(pat, rep). -/
def pyReplace (s pat rep : Str) : Str :=
  match pat with
  | [] => replEmpty rep s
  | p :: ps => replaceAux p ps rep s.length s

/-- Python dict lookup d[k], as an Option (None models a KeyError site). -/
def dictLookup (d : Dict) (k : Str) : Option Str :=
  match d with
  | [] => none
  | e :: rest => if e.1 = k then some e.2 else dictLookup rest k

/-- Python membership test: k in d. -/
def dictContains (d : Dict) (k : Str) : Bool :=
  (dictLookup d k).isSome

/-- Python str.strip(): remove whitespace from both ends. -/
def pyStrip (s : Str) : Str :=
  ((s.dropWhile Char.isWhitespace).reverse.dropWhile Char.isWhitespace).reverse

/-- Python sorted(keys, key=len, reverse=True): stable sort of a list of
    strings by descending length. -/
def lenDescKeys (l : List Str) : List Str :=
  List.insertionSort (fun a b => b.length ≤ a.length) l

/-- Python sorted(d, key=len, reverse=True) over a dict with distinct keys,
    carrying each key's value along: stable sort of the entries by
    descending key length. -/
def lenDescEntries (d : Dict) : Dict :=
  List.insertionSort (fun a b => b.1.length ≤ a.1.length) d

/-- Apply a list of (pattern, replacement) entries to a string, in list
    order, each as Python str.replace over the whole string. -/
def applyRepls (d : Dict) (text : Str) : Str :=
  match d with
  | [] => text
  | e :: rest => applyRepls rest (pyReplace text e.1 e.2)

/-- transliterator/transliterator.py lines 111-113 and 181-182 (and the
    identical cleaner loop in DATA.py lines 111-112): the Cleanup Rewriter
    of the class-based engine.
      for i in sorted(self.cleaner, key=len, reverse=True):
          text = text.replace(i, self.cleaner[i])
    Keys of a dict are distinct, so iterating the sorted keys and looking
    each key up again is iterating the stably-sorted entries. -/
def classCleanerPass (cleaner : Dict) (text : Str) : Str :=
  applyRepls (lenDescEntries cleaner) text

/-- Lines 116-120 (and transliterator.py line 335): the long-vowel bucket.
      keys_1 = sorted([i.strip() for i in self.ipa.keys() if "ː" in i],
                      key=len, reverse=True)
    The filter tests the original key; the sort key is the length of the
    stripped key. -/
def keysLong (ipa : Dict) : List Str :=
  lenDescKeys (((ipa.map Prod.fst).filter (fun k => decide ('ː' ∈ k))).map pyStrip)

/-- Lines 121-125 (and transliterator.py line 336): the bucket of keys
    without the length marker. -/
def keysShort (ipa : Dict) : List Str :=
  lenDescKeys (((ipa.map Prod.fst).filter (fun k => !decide ('ː' ∈ k))).map pyStrip)

/-- Lines 128-131 (and transliterator.py lines 339-342): apply each key of
    a bucket as text = text.replace(i, self.ipa[i]).  The lookup uses the
    stripped key, so a stripped key absent from the dict is a KeyError. -/
def applyKeyList (ipa : Dict) : List Str → Str → Except PyErr Str
  | [], text => .ok text
  | k :: rest, text =>
    match dictLookup ipa k with
    | none => .error (.keyError k)
    | some v => applyKeyList ipa rest (pyReplace text k v)

/-- Lines 115-131 (and transliterator.py lines 333-342): the two-pass
    replacement of the Cascading Segmenter: every key containing the
    length marker first, then every key without it, each bucket in
    descending key length. -/
def stReplace (ipa : Dict) (text : Str) : Except PyErr Str :=
  match applyKeyList ipa (keysLong ipa) text with
  | .error e => .error e
  | .ok t1 => applyKeyList ipa (keysShort ipa) t1

/-- Lines 133-139 (and transliterator.py lines 344-350): the offending
    characters of the coverage check, as a canonically-ordered list
    modelling the Python set
      {i for i in set(text_old) if i.strip() and i in set(text)
         and i not in keepable}.
    A single character i has truthy i.strip() exactly when it is not
    whitespace. -/
def computeErrs (told tnew keepable : Str) : Str :=
  told.dedup.filter (fun c => decide (c.isWhitespace = false ∧ c ∈ tnew ∧ c ∉ keepable))

/-- Lines 115-143 of transliterator/transliterator.py without the leading
    cleaner pass, identical to lines 333-354 of the standalone
    transliterator.py: two-pass replacement, then the coverage assert
    (AssertionError naming the offending character set). -/
def coverTransliterate (ipa : Dict) (keepable : Str) (text : Str) : Except PyErr Str :=
  match stReplace ipa text with
  | .error e => .error e
  | .ok res =>
    if computeErrs text res keepable = [] then .ok res
    else .error (.assertionError (computeErrs text res keepable))

/-- transliterator.py lines 328-354: simple_transliterate(text, textdict,
    keepable), the standalone Cascading Segmenter. -/
def simple_transliterate (textdict : Dict) (keepable : Str) (text : Str) : Except PyErr Str :=
  coverTransliterate textdict keepable text

/-- transliterator/transliterator.py lines 104-143: Transliterator
    .convert_text: the cleaner pass (lines 111-113), then the same
    replacement-and-assert block, whose text_old is the cleaned text. -/
def convert_text (ipa cleaner : Dict) (keepable : Str) (text : Str) : Except PyErr Str :=
  coverTransliterate ipa keepable (classCleanerPass cleaner text)

/-- The apostrophe character, U+0027. -/
def apoChar : Char := Char.ofNat 39

/-- transliterator/transliterator.py lines 68-102: Transliterator
    .preprocess_text.  Eleven spelled-out punctuation phrases (each led by
    a line-boundary marker, with no trailing one), then removal of the
    secondary-stress, primary-stress and syllabic-consonant marks, the
    IPA voiced-velar-stop codepoint U+0261 canonicalised to Latin g, and
    removal of carriage returns and newlines. -/
def preprocess_text (text : Str) : Str :=
  let text := pyReplace text (("\n dˈɒt").toList) ((".").toList)
  let text := pyReplace text (("\n pˈiəɹɪəd").toList) ((".").toList)
  let text := pyReplace text (("\n kˈɑːmə").toList) ((",").toList)
  let text := pyReplace text (("\n kˈoʊlən").toList) ((":").toList)
  let text := pyReplace text (("\n sˌɛmɪkˈəʊlən").toList) ((";").toList)
  let text := pyReplace text (("\n sˌɛmɪkˈoʊlən").toList) ((";").toList)
  let text := pyReplace text (("\n kwˈɛstʃən").toList) (("?").toList)
  let text := pyReplace text (("\n ɛkskləmˈeɪʃən").toList) (("!").toList)
  let text := pyReplace text (("\n kwˈoʊt").toList) [apoChar]
  let text := pyReplace text (("\n kwˈoʊts").toList) (("\"").toList)
  let text := pyReplace text (("\n bˈækslæʃ").toList) (("\\").toList)
  let text := pyReplace text (("ˌ").toList) []
  let text := pyReplace text (("ˈ").toList) []
  let text := pyReplace text (("̩").toList) []
  let text := pyReplace text (("ɡ").toList) (("g").toList)
  let text := pyReplace text (("\r").toList) []
  pyReplace text (("\n").toList) []

/-- transliterator.py lines 360-376: the stages of clean_text before the
    cleaner loop.  Ten spelled-out punctuation phrases (delimited by a
    line-boundary marker on both sides; the exclamation phrase carries a
    leading secondary-stress mark; there is no backslash phrase), then
    removal of the stress and syllabic marks and canonicalisation of the
    IPA voiced-velar-stop codepoint U+0261 to Latin g. -/
def preClean (text : Str) : Str :=
  let text := pyReplace text (("\n dˈɒt\n").toList) ((".").toList)
  let text := pyReplace text (("\n pˈiəɹɪəd\n").toList) ((".").toList)
  let text := pyReplace text (("\n kˈɑːmə\n").toList) ((",").toList)
  let text := pyReplace text (("\n kˈoʊlən\n").toList) ((":").toList)
  let text := pyReplace text (("\n sˌɛmɪkˈəʊlən\n").toList) ((";").toList)
  let text := pyReplace text (("\n sˌɛmɪkˈoʊlən\n").toList) ((";").toList)
  let text := pyReplace text (("\n kwˈɛstʃən\n").toList) (("?").toList)
  let text := pyReplace text (("\n ˌɛkskləmˈeɪʃən\n").toList) (("!").toList)
  let text := pyReplace text (("\n kwˈoʊt\n").toList) [apoChar]
  let text := pyReplace text (("\n kwˈoʊts\n").toList) (("\"").toList)
  let text := pyReplace text (("ˌ").toList) []
  let text := pyReplace text (("ˈ").toList) []
  let text := pyReplace text (("̩").toList) []
  pyReplace text (("ɡ").toList) (("g").toList)

/-- transliterator.py lines 356-382: clean_text(text, cleandict): the
    punctuation and mark stages, then the cleaner loop
      for i in cleandict: text = text.replace(i, cleandict[i])
    applied in dict insertion order (no sorting), then newline removal. -/
def clean_text (cleandict : Dict) (text : Str) : Str :=
  pyReplace (applyRepls cleandict (preClean text)) (("\n").toList) []

/-- Worker for Transliterator.transliterate, lines 145-150: the lazy
    map(self.convert_text, ...) as forced in order by the join; the first
    exception aborts the whole batch. -/
def mapConvert (ipa cleaner : Dict) (keepable : Str) : List Str → Except PyErr (List Str)
  | [] => .ok []
  | u :: rest =>
    match convert_text ipa cleaner keepable (preprocess_text u) with
    | .error e => .error e
    | .ok r =>
      match mapConvert ipa cleaner keepable rest with
      | .error e => .error e
      | .ok rs => .ok (r :: rs)

/-- transliterator/transliterator.py lines 145-150: the batch path of
    Transliterator.transliterate for a list of per-line phonetic units
    (the units are the lines produced by the out-of-scope eSpeak stage):
      text = map(self.preprocess_text, text)
      text = map(self.convert_text, text)
      text = "\n".join(text) -/
def transliterate_units (ipa cleaner : Dict) (keepable : Str) (units : List Str) : Except PyErr Str :=
  match mapConvert ipa cleaner keepable units with
  | .error e => .error e
  | .ok rs => .ok (List.flatten (rs.intersperse (("\n").toList)))

/-- Python max(len(i) for i in d.keys()) for a non-empty dict. -/
def maxKeyLen (d : Dict) : Nat :=
  (d.map (fun e => e.1.length)).foldr Nat.max 0

/-- transliterator/transliterator.py lines 187-193: the accumulation loop
    of CanadianSyllabics.convert_text.  For each character: append it to
    the buffer; if the buffer is not a key, emit the grapheme of the
    buffer minus the appended character (KeyError if that is not a key
    either) and reset the buffer; then raise ValueError with the buffer
    contents if the buffer has grown past MAXLEN.  After the loop the
    function returns out without flushing a non-empty buffer. -/
def canadianLoop (ipa : Dict) (MAXLEN : Nat) : Str → Str → Str → Except PyErr Str
  | out, _, [] => .ok out
  | out, buffer, c :: rest =>
    let buf := buffer ++ [c]
    if dictContains ipa buf then
      if buf.length > MAXLEN then .error (.valueError buf)
      else canadianLoop ipa MAXLEN out buf rest
    else
      match dictLookup ipa buf.dropLast with
      | none => .error (.keyError buf.dropLast)
      | some g =>
        if ([] : Str).length > MAXLEN then .error (.valueError [])
        else canadianLoop ipa MAXLEN (out ++ g) [] rest

/-- transliterator/transliterator.py lines 179-195: CanadianSyllabics
    .convert_text: the cleaner pass, then MAXLEN = max key length
    (Python max() raises ValueError on an empty sequence), then the
    accumulation loop over the cleaned text with empty initial buffer
    and output. -/
def canadian_convert_text (ipa cleaner : Dict) (text : Str) : Except PyErr Str :=
  let cleaned := classCleanerPass cleaner text
  match ipa with
  | [] => .error (.valueError [])
  | _ :: _ => canadianLoop ipa (maxKeyLen ipa) [] [] cleaned

/-- transliterator/DATA.py: AVESTAN_CLEANER, entries in dict insertion order. -/
def AVESTAN_CLEANER : Dict := [
  (("ɹ").toList, ("r").toList),
  (("ɛ").toList, ("e").toList),
  (("ɑ").toList, ("a").toList),
  (("æ").toList, ("a").toList),
  (("ᵻ").toList, ("ɪ").toList),
  (("ʌ").toList, ("ə:").toList),
  (("ɐ").toList, ("a").toList),
  (("ɜ").toList, ("e").toList),
  (("ɚ").toList, ("ər").toList),
  (("ɾ").toList, ("d").toList),
  (("n\u0329").toList, ("n").toList),
  (("ʔ").toList, ("").toList),
  (("?").toList, ("").toList),
  ((",").toList, ("").toList),
  (("!").toList, ("").toList)
]

/-- transliterator/DATA.py: GEORGIAN_CLEANER, entries in dict insertion order. -/
def GEORGIAN_CLEANER : Dict := [
  (("ɚ").toList, ("ər").toList),
  (("ɹ").toList, ("r").toList),
  (("ɜ").toList, ("ɛr").toList),
  (("ʌ").toList, ("ə").toList),
  (("ɪ").toList, ("i").toList),
  (("ʊ").toList, ("u").toList),
  (("ɐ").toList, ("a").toList),
  (("ᵻ").toList, ("i").toList),
  (("ŋ").toList, ("ng").toList),
  (("ɾ").toList, ("d").toList),
  (("\u02D0").toList, ("").toList)
]

/-- transliterator/DATA.py: TIFINAGH_CLEANER, entries in dict insertion order. -/
def TIFINAGH_CLEANER : Dict := [
  ((":").toList, ("").toList),
  (("ᵻ").toList, ("i").toList),
  (("ɹ").toList, ("r").toList),
  (("ɐ").toList, ("a").toList),
  (("ɜ").toList, ("er").toList),
  (("ɾ").toList, ("d").toList),
  (("ɛ").toList, ("e").toList),
  (("ɚ").toList, ("er").toList),
  (("ɪ").toList, ("i").toList),
  (("ɔ").toList, ("o").toList),
  (("ɑ").toList, ("a").toList),
  (("ʔ").toList, ("").toList),
  (("!").toList, (".").toList),
  (("\u02D0").toList, ("").toList)
]

/-- transliterator/DATA.py: ELDER_FUTHARK_CLEANER, entries in dict insertion order. -/
def ELDER_FUTHARK_CLEANER : Dict := [
  (("\u02D0").toList, ("").toList),
  (("ɚ").toList, ("er").toList),
  (("ɹ").toList, ("r").toList),
  (("ɜ").toList, ("er").toList),
  (("ʌ").toList, ("u").toList),
  (("ɪ").toList, ("i").toList),
  (("ʊ").toList, ("u").toList),
  (("ɐ").toList, ("a").toList),
  (("ᵻ").toList, ("i").toList),
  (("ŋ").toList, ("ng").toList),
  (("ɾ").toList, ("d").toList),
  (("ɑ").toList, ("a").toList),
  (("ɛ").toList, ("e").toList),
  (("ə").toList, ("e").toList),
  (("ʔ").toList, ("").toList),
  (("v").toList, ("f").toList),
  (("ʒ").toList, ("zh").toList),
  (("ʃ").toList, ("sh").toList),
  (("ɔ").toList, ("a").toList)
]

/-- transliterator/DATA.py: MEDEIVAL_RUNES_CLEANER, entries in dict insertion order. -/
def MEDEIVAL_RUNES_CLEANER : Dict := [
  (("j").toList, ("i").toList)
]

/-- transliterator/DATA.py: MONGOLIAN_CLEANER, entries in dict insertion order. -/
def MONGOLIAN_CLEANER : Dict := [
  ((";").toList, ("").toList),
  (("ə").toList, ("ɵ").toList),
  (("ɚ").toList, ("ɵr").toList),
  (("æ").toList, ("a").toList),
  (("\u02D0").toList, (":").toList),
  (("ɑ").toList, ("a").toList),
  (("ɐ").toList, ("a").toList),
  (("ʔ").toList, ("").toList),
  (("ɜ").toList, ("er").toList),
  (("ᵻ").toList, ("i").toList),
  (("ɔ").toList, ("o").toList),
  (("ɾ").toList, ("d").toList),
  (("!").toList, ("").toList),
  (("?").toList, ("").toList)
]

/-- transliterator/DATA.py: PHAGSPA_CLEANER, entries in dict insertion order. -/
def PHAGSPA_CLEANER : Dict := [
  ((":").toList, ("").toList),
  (("æ").toList, ("a").toList),
  (("ɜ").toList, ("er").toList),
  (("ɪ").toList, ("i").toList),
  (("ɹ").toList, ("r").toList),
  (("\u02D0").toList, ("").toList),
  (("ɾ").toList, ("r").toList),
  (("ɔ").toList, ("a").toList),
  (("ʊ").toList, ("u").toList),
  (("ɑ").toList, ("a").toList),
  (("a").toList, ("a").toList),
  (("ɐ").toList, ("a").toList),
  (("ə").toList, ("ʌ").toList),
  (("ɚ").toList, ("er").toList),
  (("ᵻ").toList, ("i").toList),
  ((".").toList, ("").toList),
  ((",").toList, ("").toList),
  ((";").toList, ("").toList),
  (("!").toList, ("").toList),
  (("?").toList, ("").toList)
]

/-- transliterator/DATA.py: GLAGOLITIC_CLEANER, entries in dict insertion order. -/
def GLAGOLITIC_CLEANER : Dict := [
  (("\u0261").toList, ("g").toList),
  (("a").toList, ("ɑ").toList),
  (("ɐ").toList, ("ɑ").toList),
  (("ɜ").toList, ("ɛ").toList),
  (("\u02D0").toList, ("").toList),
  (("ɚ").toList, ("ər").toList),
  (("ʊ").toList, ("u").toList),
  (("ʔ").toList, ("").toList),
  (("ɹ").toList, ("r").toList),
  (("v").toList, ("w").toList),
  (("ŋ").toList, ("ng").toList),
  (("ɾ").toList, ("d").toList)
]

/-- Discriminator: did the computation raise a ValueError? -/
def isValueError : Except PyErr Str → Bool
  | .error (.valueError _) => true
  | _ => false

/-- The fuel of replaceAux is irrelevant as long as it is at least the
    length of the string being scanned. -/
theorem replaceAux_fuel (p : Char) (ps rep : Str) :
    ∀ (f1 : Nat) (s : Str) (f2 : Nat), s.length ≤ f1 → s.length ≤ f2 →
      replaceAux p ps rep f1 s = replaceAux p ps rep f2 s := by
  intro f1
  induction f1 with
  | zero =>
    intro s f2 h1 _
    cases s with
    | nil => cases f2 <;> rfl
    | cons c rest => simp at h1
  | succ g1 ih =>
    intro s f2 h1 h2
    cases s with
    | nil => cases f2 <;> rfl
    | cons c rest =>
      cases f2 with
      | zero => simp at h2
      | succ g2 =>
        simp only [replaceAux]
        have hr : rest.length ≤ g1 := by simpa using h1
        have hr2 : rest.length ≤ g2 := by simpa using h2
        by_cases hp : (p :: ps).isPrefixOf (c :: rest) = true
        · rw [if_pos hp, if_pos hp]
          have hd : (rest.drop ps.length).length ≤ g1 := by
            rw [List.length_drop]; exact Nat.le_trans (Nat.sub_le _ _) hr
          have hd2 : (rest.drop ps.length).length ≤ g2 := by
            rw [List.length_drop]; exact Nat.le_trans (Nat.sub_le _ _) hr2
          rw [ih _ _ hd hd2]
        · rw [if_neg hp, if_neg hp]
          rw [ih _ _ hr hr2]

/-- Unfolding equation for pyReplace with a non-empty pattern on a
    non-empty string. -/
theorem pyReplace_cons (p : Char) (ps rep : Str) (c : Char) (rest : Str) :
    pyReplace (c :: rest) (p :: ps) rep =
      if (p :: ps).isPrefixOf (c :: rest) then
        rep ++ pyReplace (rest.drop ps.length) (p :: ps) rep
      else
        c :: pyReplace rest (p :: ps) rep := by
  show replaceAux p ps rep (rest.length + 1) (c :: rest) = _
  simp only [replaceAux, pyReplace]
  by_cases hp : (p :: ps).isPrefixOf (c :: rest) = true
  · rw [if_pos hp, if_pos hp]
    rw [replaceAux_fuel p ps rep rest.length _ (rest.drop ps.length).length
      (by rw [List.length_drop]; exact Nat.sub_le _ _) (Nat.le_refl _)]
  · rw [if_neg hp, if_neg hp]

/-- pyReplace with a non-empty pattern on the empty string. -/
theorem pyReplace_nil (p : Char) (ps rep : Str) : pyReplace [] (p :: ps) rep = [] := rfl

/-- Unfolding equation for pyReplace with a single-character pattern. -/
theorem pyReplace_single_cons (k : Char) (rep : Str) (c : Char) (rest : Str) :
    pyReplace (c :: rest) [k] rep =
      if k = c then rep ++ pyReplace rest [k] rep else c :: pyReplace rest [k] rep := by
  rw [pyReplace_cons]
  have : ([k].isPrefixOf (c :: rest)) = (k == c) := by
    simp [List.isPrefixOf]
  rw [this]
  by_cases h : k = c
  · simp [h]
  · simp [h, beq_eq_false_iff_ne.mpr h]

/-- Every character of replEmpty rep s comes from s or from rep. -/
theorem mem_replEmpty (a : Char) (rep : Str) :
    ∀ s : Str, a ∈ replEmpty rep s → a ∈ s ∨ a ∈ rep := by
  intro s
  induction s with
  | nil => intro h; exact Or.inr (by simpa [replEmpty] using h)
  | cons c rest ih =>
    intro h
    simp only [replEmpty, List.mem_append, List.mem_cons] at h
    rcases h with h | h | h
    · exact Or.inr h
    · exact Or.inl (by simp [h])
    · rcases ih h with h2 | h2
      · exact Or.inl (List.mem_cons_of_mem _ h2)
      · exact Or.inr h2

/-- Every character of replaceAux comes from the scanned string or the
    replacement. -/
theorem mem_replaceAux (a p : Char) (ps rep : Str) :
    ∀ (fuel : Nat) (s : Str), a ∈ replaceAux p ps rep fuel s → a ∈ s ∨ a ∈ rep := by
  intro fuel
  induction fuel with
  | zero =>
    intro s h
    cases s <;> simp [replaceAux] at h
  | succ g ih =>
    intro s h
    cases s with
    | nil => simp [replaceAux] at h
    | cons c rest =>
      simp only [replaceAux] at h
      by_cases hp : (p :: ps).isPrefixOf (c :: rest) = true
      · rw [hp, if_pos rfl] at h
        rcases List.mem_append.mp h with h2 | h2
        · exact Or.inr h2
        · rcases ih _ h2 with h3 | h3
          · exact Or.inl (List.mem_cons_of_mem _ (List.mem_of_mem_drop h3))
          · exact Or.inr h3
      · simp only [hp, if_false] at h
        rcases List.mem_cons.mp h with h2 | h2
        · exact Or.inl (by simp [h2])
        · rcases ih _ h2 with h3 | h3
          · exact Or.inl (List.mem_cons_of_mem _ h3)
          · exact Or.inr h3

/-- Every character of pyReplace s pat rep comes from s or from rep. -/
theorem mem_pyReplace (a : Char) (s pat rep : Str) :
    a ∈ pyReplace s pat rep → a ∈ s ∨ a ∈ rep := by
  cases pat with
  | nil =>
    intro h
    exact (mem_replEmpty a rep s h)
  | cons p ps => exact mem_replaceAux a p ps rep s.length s

/-- Replacement with a single-character pattern absent from the string
    leaves the string unchanged. -/
theorem pyReplace_single_not_mem (k : Char) (rep : Str) :
    ∀ s : Str, k ∉ s → pyReplace s [k] rep = s := by
  intro s
  induction s with
  | nil => intro _; rfl
  | cons c rest ih =>
    intro h
    rw [pyReplace_single_cons]
    have hkc : ¬ k = c := fun hk => h (by simp [hk])
    rw [if_neg hkc, ih (fun hm => h (List.mem_cons_of_mem _ hm))]

/-- Replacing a single character by itself is the identity. -/
theorem pyReplace_single_self (k : Char) :
    ∀ s : Str, pyReplace s [k] [k] = s := by
  intro s
  induction s with
  | nil => rfl
  | cons c rest ih =>
    rw [pyReplace_single_cons]
    by_cases h : k = c
    · rw [if_pos h, ih]; simp [h]
    · rw [if_neg h, ih]

/-- After replacing the single character k by a replacement not
    containing k, the result does not contain k. -/
theorem not_mem_pyReplace_single_self (k : Char) (rep : Str) (hk : k ∉ rep) :
    ∀ s : Str, k ∉ pyReplace s [k] rep := by
  intro s
  induction s with
  | nil => simp [pyReplace, replaceAux]
  | cons c rest ih =>
    rw [pyReplace_single_cons]
    by_cases h : k = c
    · rw [if_pos h]
      intro hm
      rcases List.mem_append.mp hm with h2 | h2
      · exact hk h2
      · exact ih h2
    · rw [if_neg h]
      intro hm
      rcases List.mem_cons.mp hm with h2 | h2
      · exact h h2
      · exact ih h2

/-- A character absent from the string and from every replacement value
    stays absent through applyRepls. -/
theorem not_mem_applyRepls (a : Char) :
    ∀ (l : Dict) (s : Str), (∀ e ∈ l, a ∉ e.2) → a ∉ s → a ∉ applyRepls l s := by
  intro l
  induction l with
  | nil => intro s _ hs; simpa [applyRepls] using hs
  | cons e rest ih =>
    intro s hv hs
    simp only [applyRepls]
    refine ih _ (fun e2 he2 => hv e2 (List.mem_cons_of_mem _ he2)) ?_
    intro hm
    rcases mem_pyReplace a s e.1 e.2 hm with h2 | h2
    · exact hs h2
    · exact hv e (List.mem_cons_self _ _) h2

/-- In a replacement list of single-character keys in which every value
    character that is itself a key is mapped identically, a key whose
    value differs from it cannot occur in the output of applyRepls. -/
theorem keychar_not_mem_applyRepls (k : Char) (v : Str) :
    ∀ (l : Dict), (([k], v) ∈ l) → v ≠ [k] →
      (∀ e ∈ l, ∀ c ∈ e.2, ∀ e2 ∈ l, e2.1 = [c] → e2.2 = [c]) →
      ∀ s, k ∉ applyRepls l s := by
  intro l
  induction l with
  | nil => intro hmem; simp at hmem
  | cons e0 rest ih =>
    intro hmem hne hid s
    have hknv : ∀ e ∈ e0 :: rest, k ∉ e.2 := by
      intro e he hc
      exact hne (hid e he k hc ([k], v) hmem rfl)
    simp only [applyRepls]
    rcases List.mem_cons.mp hmem with h0 | h0
    · have he0 : e0 = ([k], v) := h0.symm
      subst he0
      refine not_mem_applyRepls k rest _
        (fun e2 he2 => hknv e2 (List.mem_cons_of_mem _ he2)) ?_
      exact not_mem_pyReplace_single_self k v
        (hknv ([k], v) (List.mem_cons_self _ _)) s
    · exact ih h0 hne
        (fun e he c hc e2 he2 h2 =>
          hid e (List.mem_cons_of_mem _ he) c hc e2 (List.mem_cons_of_mem _ he2) h2) _

/-- applyRepls is the identity when every entry has a single-character
    key that either maps to itself or does not occur in the string. -/
theorem applyRepls_no_change :
    ∀ (l : Dict) (t : Str),
      (∀ e ∈ l, ∃ k, e.1 = [k] ∧ (e.2 = [k] ∨ k ∉ t)) → applyRepls l t = t := by
  intro l
  induction l with
  | nil => intro t _; rfl
  | cons e0 rest ih =>
    intro t h
    obtain ⟨k, hk1, hor⟩ := h e0 (List.mem_cons_self _ _)
    have hstep : pyReplace t e0.1 e0.2 = t := by
      rcases hor with h2 | h2
      · rw [hk1, h2]; exact pyReplace_single_self k t
      · rw [hk1]; exact pyReplace_single_not_mem k e0.2 t h2
    simp only [applyRepls, hstep]
    exact ih t (fun e he => h e (List.mem_cons_of_mem _ he))

/-- Replacement on a one-character string with a non-empty pattern other
    than that string itself does nothing. -/
theorem pyReplace_singleton_ne (x : Char) (pat rep : Str)
    (h0 : pat ≠ []) (h1 : pat ≠ [x]) :
    pyReplace [x] pat rep = [x] := by
  cases pat with
  | nil => exact absurd rfl h0
  | cons p ps =>
    rw [pyReplace_cons]
    have hp : ¬ (p :: ps).isPrefixOf ([x] : Str) = true := by
      intro hp
      cases ps with
      | nil =>
        simp [List.isPrefixOf] at hp
        exact h1 (by simp [hp])
      | cons q qs => simp [List.isPrefixOf] at hp
    rw [if_neg hp]
    rfl

/-- applyRepls on a one-character string, with every pattern non-empty
    and different from that string, does nothing. -/
theorem applyRepls_singleton_ne (x : Char) :
    ∀ d : Dict, (∀ e ∈ d, e.1 ≠ [] ∧ e.1 ≠ [x]) → applyRepls d [x] = [x] := by
  intro d
  induction d with
  | nil => intro _; rfl
  | cons e rest ih =>
    intro h
    obtain ⟨h0, h1⟩ := h e (List.mem_cons_self _ _)
    simp only [applyRepls, pyReplace_singleton_ne x e.1 e.2 h0 h1]
    exact ih (fun e2 he2 => h e2 (List.mem_cons_of_mem _ he2))

/-- The stable length-descending entry sort is a permutation of the
    original entries. -/
theorem lenDescEntries_perm (d : Dict) : (lenDescEntries d).Perm d :=
  List.perm_insertionSort _ d

/-- The stable length-descending entry sort is sorted: every later entry
    has key length at most that of every earlier entry. -/
theorem lenDescEntries_sorted (d : Dict) :
    List.Pairwise (fun a b : Entry => b.1.length ≤ a.1.length) (lenDescEntries d) := by
  have ht : IsTotal Entry (fun a b : Entry => b.1.length ≤ a.1.length) :=
    ⟨fun a b => Nat.le_total b.1.length a.1.length⟩
  have htr : IsTrans Entry (fun a b : Entry => b.1.length ≤ a.1.length) :=
    ⟨fun _ _ _ hab hbc => Nat.le_trans hbc hab⟩
  exact @List.sorted_insertionSort Entry _ _ ht htr d

/-- Any key the dict contains has length at most maxKeyLen. -/
theorem length_le_maxKeyLen :
    ∀ (d : Dict) (b : Str), dictContains d b = true → b.length ≤ maxKeyLen d := by
  intro d
  induction d with
  | nil => intro b h; simp [dictContains, dictLookup] at h
  | cons e rest ih =>
    intro b h
    have hm : maxKeyLen (e :: rest) = Nat.max e.1.length (maxKeyLen rest) := rfl
    simp only [dictContains, dictLookup] at h
    by_cases he : e.1 = b
    · rw [hm, ← he]
      exact Nat.le_max_left _ _
    · rw [if_neg he] at h
      rw [hm]
      exact Nat.le_trans (ih b h) (Nat.le_max_right _ _)

/-- The accumulation loop never raises ValueError when every key the dict
    contains fits in MAXLEN and the buffer starts empty or being a key:
    the buffer is reset (or a KeyError raised) before every length check. -/
theorem canadianLoop_no_overflow (ipa : Dict) (MAXLEN : Nat)
    (hM : ∀ b : Str, dictContains ipa b = true → b.length ≤ MAXLEN) :
    ∀ (text out buffer : Str), (buffer = [] ∨ dictContains ipa buffer = true) →
      isValueError (canadianLoop ipa MAXLEN out buffer text) = false := by
  intro text
  induction text with
  | nil => intro out buffer _; rfl
  | cons c rest ih =>
    intro out buffer _
    simp only [canadianLoop]
    by_cases hc : dictContains ipa (buffer ++ [c]) = true
    · rw [if_pos hc]
      have hlen : ¬ (buffer ++ [c]).length > MAXLEN :=
        Nat.not_lt.mpr (hM _ hc)
      rw [if_neg hlen]
      exact ih out (buffer ++ [c]) (Or.inr hc)
    · rw [if_neg hc]
      cases hl : dictLookup ipa (buffer ++ [c]).dropLast with
      | none => rfl
      | some g =>
        have h0 : ¬ ([] : Str).length > MAXLEN := by simp
        simp only [h0, if_false]
        exact ih (out ++ g) [] (Or.inl rfl)

/-- The offending-character list is empty exactly when every non-whitespace
    character of the original string that survives into the result is
    keepable. -/
theorem computeErrs_eq_nil_iff (told tnew keep : Str) :
    computeErrs told tnew keep = [] ↔
      ∀ c ∈ told, c.isWhitespace = false → c ∈ tnew → c ∈ keep := by
  simp only [computeErrs, List.filter_eq_nil_iff, List.mem_dedup, decide_eq_true_eq]
  constructor
  · intro h c hc hw hm
    by_contra hk
    exact h c hc ⟨hw, hm, hk⟩
  · intro h c hc hp
    exact hp.2.2 (h c hc hp.1 hp.2.1)

/-- Membership in the offending-character list. -/
theorem mem_computeErrs_iff (told tnew keep : Str) (c : Char) :
    c ∈ computeErrs told tnew keep ↔
      c ∈ told ∧ c.isWhitespace = false ∧ c ∈ tnew ∧ c ∉ keep := by
  simp only [computeErrs, List.mem_filter, List.mem_dedup, decide_eq_true_eq]

/-- If every unit before u converts successfully and u fails with e, the
    batch conversion of pre ++ u :: post fails with e. -/
theorem mapConvert_first_error (ipa cleaner : Dict) (keepable : Str)
    (u : Str) (e : PyErr)
    (hu : convert_text ipa cleaner keepable (preprocess_text u) = .error e) :
    ∀ (pre : List Str),
      (∀ v ∈ pre, ∃ r, convert_text ipa cleaner keepable (preprocess_text v) = .ok r) →
      ∀ (post : List Str),
        mapConvert ipa cleaner keepable (pre ++ u :: post) = .error e := by
  intro pre
  induction pre with
  | nil =>
    intro _ post
    simp only [List.nil_append, mapConvert, hu]
  | cons v vs ih =>
    intro hpre post
    obtain ⟨r, hr⟩ := hpre v (List.mem_cons_self _ _)
    have h2 := ih (fun w hw => hpre w (List.mem_cons_of_mem _ hw)) post
    simp only [List.cons_append, List.append_eq, mapConvert, hr, h2]

/-- Idempotence of applyRepls for a replacement list of single-character
    keys in which every value character that is itself a key is mapped
    identically. -/
theorem applyRepls_idem (l : Dict)
    (h1 : ∀ e ∈ l, e.1.length = 1)
    (hid : ∀ e ∈ l, ∀ c ∈ e.2, ∀ e2 ∈ l, e2.1 = [c] → e2.2 = [c])
    (s : Str) :
    applyRepls l (applyRepls l s) = applyRepls l s := by
  refine applyRepls_no_change l (applyRepls l s) ?_
  intro e he
  obtain ⟨k, hk⟩ := List.length_eq_one.mp (h1 e he)
  refine ⟨k, hk, ?_⟩
  by_cases hv : e.2 = [k]
  · exact Or.inl hv
  · refine Or.inr ?_
    have hmem : ([k], e.2) ∈ l := by
      have : e = ([k], e.2) := by
        cases e; simp at hk; simp [hk]
      rw [← this]; exact he
    exact keychar_not_mem_applyRepls k e.2 l hmem hv hid s

/-- C1 (code_bug evidence): for the Buffered Greedy Segmenter
    CanadianSyllabics.convert_text with grapheme map mapping a to X and
    ab to Y, input ab returns the empty string: at end of input the
    non-empty buffer ab is silently discarded instead of being flushed to
    Y as the claim (and the spec) state. -/
theorem c1_final_buffer_dropped :
    canadian_convert_text
        [((("a").toList), (("X").toList)), ((("ab").toList), (("Y").toList))]
        [] (("ab").toList)
      = .ok [] := by
  decide

/-- C4 (counterexample): with grapheme map keys a and ab (MAXLEN = 2), the
    input ccc contains a phoneme cluster one character longer than any
    defined key and sharing no valid prefix with any key, yet the method
    raises the dictionary lookup failure KeyError on the empty prefix, and
    no ValueError (BufferOverflowError) at all. -/
theorem c4_counter_overflow_not_raised :
    canadian_convert_text
        [((("a").toList), (("X").toList)), ((("ab").toList), (("Y").toList))]
        [] (("ccc").toList)
      = .error (.keyError [])
    ∧ isValueError
        (canadian_convert_text
          [((("a").toList), (("X").toList)), ((("ab").toList), (("Y").toList))]
          [] (("ccc").toList))
      = false := by
  decide

/-- C4 (amended): in the accumulation loop, a character reached with an
    empty buffer that does not begin any valid one-character key raises
    the dictionary lookup failure KeyError on the empty prefix — not the
    buffer-overflow ValueError. -/
theorem c4_unmatched_cluster_raises_keyError (ipa : Dict) (MAXLEN : Nat)
    (out : Str) (c : Char) (rest : Str)
    (h1 : dictContains ipa [c] = false) (h2 : dictLookup ipa [] = none) :
    canadianLoop ipa MAXLEN out [] (c :: rest) = .error (.keyError []) := by
  have hc : ¬ dictContains ipa (([] : Str) ++ [c]) = true := by
    simpa using h1
  simp only [canadianLoop]
  rw [if_neg hc]
  have hd : (([] : Str) ++ [c]).dropLast = ([] : Str) := by simp
  rw [hd, h2]

/-- Witness for c4_unmatched_cluster_raises_keyError at the concrete
    profile of the counterexample. -/
theorem c4_unmatched_cluster_raises_keyError_witness :
    dictContains [((("a").toList), (("X").toList)), ((("ab").toList), (("Y").toList))] [('c' : Char)] = false
    ∧ dictLookup [((("a").toList), (("X").toList)), ((("ab").toList), (("Y").toList))] [] = none
    ∧ canadianLoop [((("a").toList), (("X").toList)), ((("ab").toList), (("Y").toList))] 2 [] [] (("ccc").toList)
      = .error (.keyError []) := by
  refine ⟨by decide, by decide, ?_⟩
  have h := c4_unmatched_cluster_raises_keyError
    [((("a").toList), (("X").toList)), ((("ab").toList), (("Y").toList))]
    2 [] 'c' (("cc").toList) (by decide) (by decide)
  exact h

/-- C5: in CanadianSyllabics.convert_text, for every input string, every
    cleaner, and every non-empty grapheme map, the buffer-overflow branch
    is unreachable: after each appended character the buffer is either an
    exact key of the map (of length at most MAXLEN) or already reset, so
    the method never raises the overgrowth ValueError — the only failures
    it can raise are dictionary lookup failures. -/
theorem c5_overflow_unreachable (ipa cleaner : Dict) (text : Str)
    (h : ipa ≠ []) :
    isValueError (canadian_convert_text ipa cleaner text) = false := by
  unfold canadian_convert_text
  cases hi : ipa with
  | nil => exact absurd hi h
  | cons e rest =>
    rw [← hi]
    have hM : ∀ b : Str, dictContains ipa b = true → b.length ≤ maxKeyLen ipa :=
      fun b hb => length_le_maxKeyLen ipa b hb
    have := canadianLoop_no_overflow ipa (maxKeyLen ipa) hM
      (classCleanerPass cleaner text) [] [] (Or.inl rfl)
    rw [hi]
    rw [hi] at this
    exact this

/-- Witness for c5_overflow_unreachable at a concrete profile and input. -/
theorem c5_overflow_unreachable_witness :
    ([((("a").toList), (("X").toList))] : Dict) ≠ []
    ∧ isValueError
        (canadian_convert_text [((("a").toList), (("X").toList))] [] (("aq").toList))
      = false := by
  exact ⟨by decide, c5_overflow_unreachable [((("a").toList), (("X").toList))] [] (("aq").toList) (by decide)⟩

/-- C2 (counterexample): with grapheme map mapping a to X and an empty
    keepable set, the input consisting of a single space succeeds, even
    though the space is present in the pre-replacement string, still
    present in the result, and not in the keepable set: the coverage
    check silently skips whitespace characters. -/
theorem c2_counter_whitespace_skipped :
    simple_transliterate [((("a").toList), (("X").toList))] [] ([' '] : Str) = .ok [' ']
    ∧ (' ' ∈ ([' '] : Str)) ∧ (' ' ∉ ([] : Str)) := by
  decide

/-- C2 (amended): when the two-pass replacement succeeds with result res,
    the Cascading Segmenter succeeds if and only if every non-whitespace
    character of the pre-replacement string that is still present in res
    is keepable; otherwise it raises the coverage AssertionError naming
    exactly the set of non-whitespace offending characters; and the
    class-based convert_text is the same check applied to the cleaned
    text. -/
theorem c2_coverage_check_whitespace (ipa : Dict) (keepable t res : Str)
    (h : stReplace ipa t = .ok res) :
    (simple_transliterate ipa keepable t = .ok res ↔
      ∀ c ∈ t, c.isWhitespace = false → c ∈ res → c ∈ keepable)
    ∧ (∀ E, simple_transliterate ipa keepable t = .error (.assertionError E) →
        E ≠ [] ∧ ∀ c, (c ∈ E ↔ c ∈ t ∧ c.isWhitespace = false ∧ c ∈ res ∧ c ∉ keepable))
    ∧ (∀ (cleaner : Dict) (t0 : Str), classCleanerPass cleaner t0 = t →
        convert_text ipa cleaner keepable t0 = simple_transliterate ipa keepable t) := by
  have hcover : simple_transliterate ipa keepable t =
      (if computeErrs t res keepable = [] then Except.ok res
       else Except.error (.assertionError (computeErrs t res keepable))) := by
    simp only [simple_transliterate, coverTransliterate, h]
  refine ⟨?_, ?_, ?_⟩
  · by_cases herrs : computeErrs t res keepable = []
    · rw [hcover, if_pos herrs]
      exact iff_of_true rfl ((computeErrs_eq_nil_iff t res keepable).mp herrs)
    · rw [hcover, if_neg herrs]
      refine iff_of_false (by simp) ?_
      intro hall
      exact herrs ((computeErrs_eq_nil_iff t res keepable).mpr hall)
  · intro E hE
    by_cases herrs : computeErrs t res keepable = []
    · rw [hcover, if_pos herrs] at hE
      cases hE
    · rw [hcover, if_neg herrs] at hE
      have hEe : computeErrs t res keepable = E := by
        injection hE with h1
        injection h1 with h2
      refine ⟨by rw [← hEe]; exact herrs, ?_⟩
      intro c
      rw [← hEe]
      exact mem_computeErrs_iff t res keepable c
  · intro cleaner t0 hcl
    simp only [convert_text, simple_transliterate, hcl]

/-- Witness for c2_coverage_check_whitespace at the concrete one-entry
    profile. -/
theorem c2_coverage_check_whitespace_witness :
    stReplace [((("a").toList), (("X").toList))] (("a").toList) = .ok (("X").toList)
    ∧ ((simple_transliterate [((("a").toList), (("X").toList))] [] (("a").toList)
          = .ok (("X").toList) ↔
        ∀ c ∈ (("a").toList), c.isWhitespace = false → c ∈ (("X").toList) → c ∈ ([] : Str))
      ∧ (∀ E, simple_transliterate [((("a").toList), (("X").toList))] [] (("a").toList)
            = .error (.assertionError E) →
          E ≠ [] ∧ ∀ c, (c ∈ E ↔
            c ∈ (("a").toList) ∧ c.isWhitespace = false ∧ c ∈ (("X").toList) ∧ c ∉ ([] : Str)))
      ∧ (∀ (cleaner : Dict) (t0 : Str), classCleanerPass cleaner t0 = (("a").toList) →
          convert_text [((("a").toList), (("X").toList))] cleaner [] t0
            = simple_transliterate [((("a").toList), (("X").toList))] [] (("a").toList))) :=
  ⟨by decide, c2_coverage_check_whitespace _ _ _ _ (by decide)⟩

/-- C3 (counterexample): a batch of three units in which unit 2 contains
    the unmapped character b aborts at unit 2: the whole batch evaluates
    to unit 2 failure and no output is produced for units 1 and 3. -/
theorem c3_counter_batch_aborts :
    transliterate_units [((("a").toList), (("X").toList))] [] []
        [("a").toList, ("b").toList, ("a").toList]
      = .error (.assertionError (("b").toList)) := by
  decide

/-- C3 (amended): when every unit before u converts successfully and u
    fails with exception e, the batch path of Transliterator.transliterate
    propagates e for the whole batch: later units are not reflected in any
    output and only the first failure is reported. -/
theorem c3_batch_aborts_on_first_failure (ipa cleaner : Dict) (keepable : Str)
    (pre post : List Str) (u : Str) (e : PyErr)
    (hpre : ∀ v ∈ pre, ∃ r, convert_text ipa cleaner keepable (preprocess_text v) = .ok r)
    (hu : convert_text ipa cleaner keepable (preprocess_text u) = .error e) :
    transliterate_units ipa cleaner keepable (pre ++ u :: post) = .error e := by
  unfold transliterate_units
  rw [mapConvert_first_error ipa cleaner keepable u e hu pre hpre post]

/-- Witness for c3_batch_aborts_on_first_failure at the three-unit batch
    of the counterexample. -/
theorem c3_batch_aborts_on_first_failure_witness :
    (∀ v ∈ [("a").toList], ∃ r,
      convert_text [((("a").toList), (("X").toList))] [] [] (preprocess_text v) = .ok r)
    ∧ convert_text [((("a").toList), (("X").toList))] [] [] (preprocess_text (("b").toList))
        = .error (.assertionError (("b").toList))
    ∧ transliterate_units [((("a").toList), (("X").toList))] [] []
        ([("a").toList] ++ ("b").toList :: [("a").toList])
        = .error (.assertionError (("b").toList)) := by
  have hpre : ∀ v ∈ [("a").toList], ∃ r,
      convert_text [((("a").toList), (("X").toList))] [] [] (preprocess_text v) = .ok r := by
    intro v hv
    have hv2 : v = ("a").toList := by simpa using hv
    subst hv2
    exact ⟨("X").toList, by decide⟩
  refine ⟨hpre, by decide, ?_⟩
  exact c3_batch_aborts_on_first_failure _ _ _ _ _ _ _ hpre (by decide)

/-- C6: in the Cascading Segmenter, keys containing the length marker are
    applied before keys without it, so with a profile holding both the
    long-vowel key aː (grapheme g1) and the short key a (grapheme g2),
    input aː yields g1 — never g2 followed by a leftover length marker —
    whichever order the two entries were defined in, and likewise through
    the class-based convert_text.  The graphemes are target-script text:
    g1 contains neither the IPA letter a nor the length marker. -/
theorem c6_long_vowel_precedence (g1 g2 keep : Str)
    (ha : 'a' ∉ g1) (hl : 'ː' ∉ g1) :
    simple_transliterate [((("aː").toList), g1), ((("a").toList), g2)] keep (("aː").toList) = .ok g1
    ∧ simple_transliterate [((("a").toList), g2), ((("aː").toList), g1)] keep (("aː").toList) = .ok g1
    ∧ convert_text [((("aː").toList), g1), ((("a").toList), g2)] [] keep (("aː").toList) = .ok g1 := by
  have hrep1 : pyReplace (("aː").toList) (("aː").toList) g1 = g1 := by
    show pyReplace ('a' :: ['ː']) ('a' :: ['ː']) g1 = g1
    rw [pyReplace_cons, if_pos (by decide : ('a' :: ['ː']).isPrefixOf ('a' :: ['ː']) = true)]
    show g1 ++ pyReplace [] ('a' :: ['ː']) g1 = g1
    rw [pyReplace_nil]
    exact List.append_nil g1
  have hrep2 : pyReplace g1 (("a").toList) g2 = g1 :=
    pyReplace_single_not_mem 'a' g2 g1 ha
  have herrs : computeErrs (("aː").toList) g1 keep = [] := by
    rw [computeErrs_eq_nil_iff]
    intro c hc _ hm
    have hcc : c = 'a' ∨ c = 'ː' := by simpa using hc
    rcases hcc with h | h
    · exact absurd hm (h ▸ ha)
    · exact absurd hm (h ▸ hl)
  have hst1 : stReplace [((("aː").toList), g1), ((("a").toList), g2)] (("aː").toList) = .ok g1 := by
    have e1 : stReplace [((("aː").toList), g1), ((("a").toList), g2)] (("aː").toList)
        = applyKeyList [((("aː").toList), g1), ((("a").toList), g2)]
            (keysShort [((("aː").toList), g1), ((("a").toList), g2)])
            (pyReplace (("aː").toList) (("aː").toList) g1) := rfl
    rw [e1, hrep1]
    have e2 : applyKeyList [((("aː").toList), g1), ((("a").toList), g2)]
        (keysShort [((("aː").toList), g1), ((("a").toList), g2)]) g1
        = .ok (pyReplace g1 (("a").toList) g2) := rfl
    rw [e2, hrep2]
  have hst2 : stReplace [((("a").toList), g2), ((("aː").toList), g1)] (("aː").toList) = .ok g1 := by
    have e1 : stReplace [((("a").toList), g2), ((("aː").toList), g1)] (("aː").toList)
        = applyKeyList [((("a").toList), g2), ((("aː").toList), g1)]
            (keysShort [((("a").toList), g2), ((("aː").toList), g1)])
            (pyReplace (("aː").toList) (("aː").toList) g1) := rfl
    rw [e1, hrep1]
    have e2 : applyKeyList [((("a").toList), g2), ((("aː").toList), g1)]
        (keysShort [((("a").toList), g2), ((("aː").toList), g1)]) g1
        = .ok (pyReplace g1 (("a").toList) g2) := rfl
    rw [e2, hrep2]
  have hc1 : coverTransliterate [((("aː").toList), g1), ((("a").toList), g2)] keep (("aː").toList) = .ok g1 := by
    simp only [coverTransliterate, hst1, herrs]
    exact if_pos trivial
  have hc2 : coverTransliterate [((("a").toList), g2), ((("aː").toList), g1)] keep (("aː").toList) = .ok g1 := by
    simp only [coverTransliterate, hst2, herrs]
    exact if_pos trivial
  exact ⟨hc1, hc2, hc1⟩

/-- Witness for c6_long_vowel_precedence at concrete graphemes X and Y. -/
theorem c6_long_vowel_precedence_witness :
    (('a' : Char) ∉ (("X").toList)) ∧ (('ː' : Char) ∉ (("X").toList))
    ∧ (simple_transliterate [((("aː").toList), ("X").toList), ((("a").toList), ("Y").toList)] []
          (("aː").toList) = .ok (("X").toList)
      ∧ simple_transliterate [((("a").toList), ("Y").toList), ((("aː").toList), ("X").toList)] []
          (("aː").toList) = .ok (("X").toList)
      ∧ convert_text [((("aː").toList), ("X").toList), ((("a").toList), ("Y").toList)] [] []
          (("aː").toList) = .ok (("X").toList)) :=
  ⟨by decide, by decide,
    c6_long_vowel_precedence (("X").toList) (("Y").toList) [] (by decide) (by decide)⟩

/-- C7 (counterexample): the standalone clean_text does not apply the
    cleanup map in descending key length.  With the map defining a before
    ab (insertion order), input ab: applying entries longest-first gives
    c (as the class-based cleanup pass does), but clean_text applies the
    entries in insertion order and gives bb. -/
theorem c7_counter_cleanText_insertion_order :
    clean_text [((("a").toList), (("b").toList)), ((("ab").toList), (("c").toList))]
        (("ab").toList) = ("bb").toList
    ∧ classCleanerPass [((("a").toList), (("b").toList)), ((("ab").toList), (("c").toList))]
        (("ab").toList) = ("c").toList
    ∧ ("bb").toList ≠ ("c").toList := by
  decide

/-- C7 (amended): the class-based cleanup pass applies every entry,
    stably sorted by descending key length (hence deterministically and
    insertion-order-independently, as the two orders of the example show);
    the standalone clean_text applies every entry deterministically but in
    the map iteration (insertion) order, not sorted by length. -/
theorem c7_cleaner_descending_only_in_class :
    (∀ d : Dict, (lenDescEntries d).Perm d
      ∧ List.Pairwise (fun a b : Entry => b.1.length ≤ a.1.length) (lenDescEntries d))
    ∧ classCleanerPass [((("a").toList), (("b").toList)), ((("ab").toList), (("c").toList))]
        (("ab").toList) = ("c").toList
    ∧ classCleanerPass [((("ab").toList), (("c").toList)), ((("a").toList), (("b").toList))]
        (("ab").toList) = ("c").toList
    ∧ clean_text [((("a").toList), (("b").toList)), ((("ab").toList), (("c").toList))]
        (("ab").toList) = ("bb").toList
    ∧ clean_text [((("ab").toList), (("c").toList)), ((("a").toList), (("b").toList))]
        (("ab").toList) = ("c").toList :=
  ⟨fun d => ⟨lenDescEntries_perm d, lenDescEntries_sorted d⟩, by decide⟩

/-- C8 (counterexample): the two implementations do not both replace every
    phrase of the fixed set.  In the class-based preprocess_text the
    double-quote phrase is corrupted by the single-quote rule applied
    first (it yields an apostrophe followed by s, not a double quote);
    in the standalone clean_text the backslash phrase has no entry at all
    (only its stress mark is stripped; no backslash is produced). -/
theorem c8_counter_missing_phrases :
    preprocess_text (("\n kwˈoʊts").toList) = [apoChar, 's']
    ∧ [apoChar, 's'] ≠ ("\"").toList
    ∧ clean_text [] (("\n bˈækslæʃ\n").toList) = (" bækslæʃ").toList
    ∧ (" bækslæʃ").toList ≠ ("\\").toList := by
  decide

/-- C8 (amended): before stripping stress marks, both implementations
    replace the delimited period (two phrasings), comma, colon, semicolon
    (two phrasings), question-mark, exclamation-mark and single-quote
    phrases with their literal characters; the backslash phrase is
    replaced only by the class-based preprocess_text (clean_text has no
    entry for it), and the double-quote phrase is replaced correctly only
    by the standalone clean_text (in preprocess_text the single-quote
    rule, applied first, rewrites its prefix, leaving an apostrophe
    followed by s). -/
theorem c8_punctuation_phrases :
    preprocess_text (("\n dˈɒt").toList) = (".").toList
    ∧ preprocess_text (("\n pˈiəɹɪəd").toList) = (".").toList
    ∧ preprocess_text (("\n kˈɑːmə").toList) = (",").toList
    ∧ preprocess_text (("\n kˈoʊlən").toList) = (":").toList
    ∧ preprocess_text (("\n sˌɛmɪkˈəʊlən").toList) = (";").toList
    ∧ preprocess_text (("\n sˌɛmɪkˈoʊlən").toList) = (";").toList
    ∧ preprocess_text (("\n kwˈɛstʃən").toList) = ("?").toList
    ∧ preprocess_text (("\n ɛkskləmˈeɪʃən").toList) = ("!").toList
    ∧ preprocess_text (("\n kwˈoʊt").toList) = [apoChar]
    ∧ preprocess_text (("\n bˈækslæʃ").toList) = ("\\").toList
    ∧ preprocess_text (("\n kwˈoʊts").toList) = [apoChar, 's']
    ∧ clean_text [] (("\n dˈɒt\n").toList) = (".").toList
    ∧ clean_text [] (("\n pˈiəɹɪəd\n").toList) = (".").toList
    ∧ clean_text [] (("\n kˈɑːmə\n").toList) = (",").toList
    ∧ clean_text [] (("\n kˈoʊlən\n").toList) = (":").toList
    ∧ clean_text [] (("\n sˌɛmɪkˈəʊlən\n").toList) = (";").toList
    ∧ clean_text [] (("\n sˌɛmɪkˈoʊlən\n").toList) = (";").toList
    ∧ clean_text [] (("\n kwˈɛstʃən\n").toList) = ("?").toList
    ∧ clean_text [] (("\n ˌɛkskləmˈeɪʃən\n").toList) = ("!").toList
    ∧ clean_text [] (("\n kwˈoʊt\n").toList) = [apoChar]
    ∧ clean_text [] (("\n kwˈoʊts\n").toList) = ("\"").toList
    ∧ clean_text [] (("\n bˈækslæʃ\n").toList) = (" bækslæʃ").toList := by
  decide

/-- C9 (counterexample): the bare phoneme string dˈɒt does not normalize
    to a period in either implementation: the punctuation patterns require
    the line-boundary delimiters, so only the stress mark is stripped and
    the result is dɒt. -/
theorem c9_counter_bare_phrase :
    preprocess_text (("dˈɒt").toList) = ("dɒt").toList
    ∧ clean_text [] (("dˈɒt").toList) = ("dɒt").toList
    ∧ ("dɒt").toList ≠ (".").toList := by
  decide

/-- C9 (amended): the delimited phrase for the spoken period normalizes to
    a literal period: in the class-based preprocess_text (which takes no
    profile and is therefore the same for every profile) for the phrase
    with its leading line-boundary marker, and in the standalone
    clean_text (whose trailing marker is also required) for every profile
    whose cleaner has only non-empty keys none of which is the period
    itself — true of every shipped profile. -/
theorem c9_delimited_dot_normalizes (d : Dict)
    (hd : ∀ e ∈ d, e.1 ≠ [] ∧ e.1 ≠ (".").toList) :
    preprocess_text (("\n dˈɒt").toList) = (".").toList
    ∧ clean_text d (("\n dˈɒt\n").toList) = (".").toList := by
  refine ⟨by decide, ?_⟩
  have hpre : preClean (("\n dˈɒt\n").toList) = ('.' : Char) :: [] := by decide
  show pyReplace (applyRepls d (preClean (("\n dˈɒt\n").toList))) (("\n").toList) [] = (".").toList
  rw [hpre, applyRepls_singleton_ne '.' d hd]
  decide

/-- Witness for c9_delimited_dot_normalizes at a one-entry cleaner. -/
theorem c9_delimited_dot_normalizes_witness :
    (∀ e ∈ ([((("ɹ").toList), (("r").toList))] : Dict), e.1 ≠ [] ∧ e.1 ≠ (".").toList)
    ∧ (preprocess_text (("\n dˈɒt").toList) = (".").toList
      ∧ clean_text [((("ɹ").toList), (("r").toList))] (("\n dˈɒt\n").toList) = (".").toList) :=
  ⟨by decide, c9_delimited_dot_normalizes [((("ɹ").toList), (("r").toList))] (by decide)⟩

/-- C10 (counterexample): the cleanup pass of the avestan profile is not
    idempotent.  On the input consisting of n followed by two syllabic
    markers U+0329, one application yields n followed by one marker (the
    two-character key recreates itself across the replacement boundary),
    and a second application yields plain n. -/
theorem c10_counter_avestan_not_idempotent :
    classCleanerPass AVESTAN_CLEANER
        (classCleanerPass AVESTAN_CLEANER (['n', '̩', '̩'] : Str))
      ≠ classCleanerPass AVESTAN_CLEANER (['n', '̩', '̩'] : Str)
    ∧ classCleanerPass AVESTAN_CLEANER (['n', '̩', '̩'] : Str) = ['n', '̩']
    ∧ classCleanerPass AVESTAN_CLEANER (['n', '̩'] : Str) = ['n'] := by
  decide

/-- C10 (amended): for every profile shipped in DATA.py except avestan,
    the cleanup pass is idempotent on every input string: all their keys
    are single characters and no replacement value reintroduces a key
    character it does not map identically.  The avestan cleaner, with its
    two-character key, is the exception (see the counterexample). -/
theorem c10_cleanup_idempotent_except_avestan (s : Str) :
    classCleanerPass GEORGIAN_CLEANER (classCleanerPass GEORGIAN_CLEANER s)
      = classCleanerPass GEORGIAN_CLEANER s
    ∧ classCleanerPass TIFINAGH_CLEANER (classCleanerPass TIFINAGH_CLEANER s)
      = classCleanerPass TIFINAGH_CLEANER s
    ∧ classCleanerPass ELDER_FUTHARK_CLEANER (classCleanerPass ELDER_FUTHARK_CLEANER s)
      = classCleanerPass ELDER_FUTHARK_CLEANER s
    ∧ classCleanerPass MEDEIVAL_RUNES_CLEANER (classCleanerPass MEDEIVAL_RUNES_CLEANER s)
      = classCleanerPass MEDEIVAL_RUNES_CLEANER s
    ∧ classCleanerPass MONGOLIAN_CLEANER (classCleanerPass MONGOLIAN_CLEANER s)
      = classCleanerPass MONGOLIAN_CLEANER s
    ∧ classCleanerPass PHAGSPA_CLEANER (classCleanerPass PHAGSPA_CLEANER s)
      = classCleanerPass PHAGSPA_CLEANER s
    ∧ classCleanerPass GLAGOLITIC_CLEANER (classCleanerPass GLAGOLITIC_CLEANER s)
      = classCleanerPass GLAGOLITIC_CLEANER s :=
  ⟨applyRepls_idem (lenDescEntries GEORGIAN_CLEANER) (by decide) (by decide) s,
    applyRepls_idem (lenDescEntries TIFINAGH_CLEANER) (by decide) (by decide) s,
    applyRepls_idem (lenDescEntries ELDER_FUTHARK_CLEANER) (by decide) (by decide) s,
    applyRepls_idem (lenDescEntries MEDEIVAL_RUNES_CLEANER) (by decide) (by decide) s,
    applyRepls_idem (lenDescEntries MONGOLIAN_CLEANER) (by decide) (by decide) s,
    applyRepls_idem (lenDescEntries PHAGSPA_CLEANER) (by decide) (by decide) s,
    applyRepls_idem (lenDescEntries GLAGOLITIC_CLEANER) (by decide) (by decide) s⟩

end Transl
